import Mathlib

set_option maxRecDepth 10000

/-!
Shallow embedding of `tools/dmg_wave_crc.py`.

The embedded core is:
  * the trace-line matcher `WAVE_READ_RE` (regex
    `apu\.ch3 wave read.*addr=0x([0-9A-Fa-f]{4}).*result=0x([0-9A-Fa-f]{2})`
    applied with `re.search`, i.e. leftmost match start and greedy `.*`),
  * `str.splitlines`,
  * the dump-reconstruction state machine of `collect_wave_dumps`,
  * `zlib.crc32` and the reporting tail of `main`.
Machine integers are modelled as `Nat`; parsed addresses are below `2 ^ 16`
and parsed byte values below `2 ^ 8` by construction of the hex fields.
-/

def WAVE_ADDR_START : Nat := 0xFF30

def WAVE_ADDR_END : Nat := 0xFF3F

/-- A matched wave-RAM read: `addr = int(group 1, 16)`, `value = int(group 2, 16)`. -/
structure Event where
  addr : Nat
  value : Nat
deriving DecidableEq

/-- The character class `[0-9A-Fa-f]` of `WAVE_READ_RE`. -/
def isHexDigit (c : Char) : Bool :=
  (decide ('0' ≤ c) && decide (c ≤ '9')) ||
  (decide ('A' ≤ c) && decide (c ≤ 'F')) ||
  (decide ('a' ≤ c) && decide (c ≤ 'f'))

/-- Value of one hexadecimal digit, as in Python `int(_, 16)`. -/
def hexDigitVal (c : Char) : Nat :=
  if decide ('0' ≤ c) && decide (c ≤ '9') then c.toNat - '0'.toNat
  else if decide ('A' ≤ c) && decide (c ≤ 'F') then c.toNat - 'A'.toNat + 10
  else c.toNat - 'a'.toNat + 10

/-- Value of a big-endian string of hexadecimal digits, as in Python `int(_, 16)`. -/
def hexListVal (ds : List Char) : Nat :=
  ds.foldl (fun a c => 16 * a + hexDigitVal c) 0

/-- Match a literal character sequence at the head of `s`, returning the rest. -/
def dropLit : List Char → List Char → Option (List Char)
  | [], s => some s
  | _ :: _, [] => none
  | c :: cs, x :: xs => if x = c then dropLit cs xs else none

/-- Match exactly `n` hexadecimal digits at the head of `s`. -/
def takeHex : Nat → List Char → Option (List Char × List Char)
  | 0, s => some ([], s)
  | _ + 1, [] => none
  | n + 1, c :: cs =>
    if isHexDigit c then (takeHex n cs).map (fun p => (c :: p.1, p.2)) else none

def waveMarker : List Char := "apu.ch3 wave read".data

def addrLit : List Char := "addr=0x".data

def resultLit : List Char := "result=0x".data

/-- Match `addr=0x` followed by 4 hex digits at the head of `s` (regex fragment
`addr=0x([0-9A-Fa-f]{4})`), returning the decoded address and the rest. -/
def readAddr (s : List Char) : Option (Nat × List Char) :=
  match dropLit addrLit s with
  | none => none
  | some r =>
    match takeHex 4 r with
    | none => none
    | some (ds, rest) => some (hexListVal ds, rest)

/-- Match `result=0x` followed by 2 hex digits at the head of `s` (regex fragment
`result=0x([0-9A-Fa-f]{2})`), returning the decoded value and the rest. -/
def readResult (s : List Char) : Option (Nat × List Char) :=
  match dropLit resultLit s with
  | none => none
  | some r =>
    match takeHex 2 r with
    | none => none
    | some (ds, rest) => some (hexListVal ds, rest)

/-- Greedy `.*f`: try `f` at the latest possible position first. `.` does not
match a newline, so positions beyond a `'\n'` are unreachable. -/
def searchLast {α : Type} (f : List Char → Option α) : List Char → Option α
  | [] => f []
  | c :: cs =>
    if c = '\n' then f (c :: cs)
    else
      match searchLast f cs with
      | some r => some r
      | none => f (c :: cs)

/-- The regex tail `addr=0x([0-9A-Fa-f]{4}).*result=0x([0-9A-Fa-f]{2})` anchored
at the head of `s`: an address field here, then (greedily) a result field. -/
def readAddrResult (s : List Char) : Option (Nat × Nat) :=
  match readAddr s with
  | none => none
  | some (a, rest) =>
    match searchLast readResult rest with
    | none => none
    | some (v, _) => some (a, v)

/-- `re.search` of `WAVE_READ_RE`: try each start position left to right; at a
position the marker must match literally, then the greedy tail. -/
def searchFrom : List Char → Option (Nat × Nat)
  | [] => none
  | c :: cs =>
    match dropLit waveMarker (c :: cs) with
    | some rest =>
      match searchLast readAddrResult rest with
      | some p => some p
      | none => searchFrom cs
    | none => searchFrom cs

/-- The trace-line matcher: `WAVE_READ_RE.search(line)` plus the two
`int(group, 16)` decodes of `collect_wave_dumps` (lines 81, 83, 86). -/
def waveReadSearch (line : List Char) : Option Event :=
  match searchFrom line with
  | none => none
  | some (a, v) => some ⟨a, v⟩

/-- Line-boundary characters of Python `str.splitlines`. -/
def lineBreakChar (c : Char) : Bool :=
  c = '\n' || c = '\r' || c = '\x0b' || c = '\x0c' ||
  c = '\x1c' || c = '\x1d' || c = '\x1e' || c = '\x85' || c = '\u2028' || c = '\u2029'

/-- Worker for `splitlines`; `acc` holds the current line reversed. -/
def splitlinesGo (acc : List Char) : List Char → List (List Char)
  | [] => [acc.reverse]
  | '\r' :: '\n' :: cs => acc.reverse :: (if cs = [] then [] else splitlinesGo [] cs)
  | c :: cs =>
    if lineBreakChar c then acc.reverse :: (if cs = [] then [] else splitlinesGo [] cs)
    else splitlinesGo (c :: acc) cs

/-- Python `str.splitlines` over a character list. -/
def splitlines (s : List Char) : List (List Char) :=
  if s = [] then [] else splitlinesGo [] s

/-- The reconstructor's mutable state: the in-progress byte accumulator
`current` and the next address `expected_addr` it expects. -/
structure WaveState where
  current : List Nat
  expected_addr : Nat
deriving DecidableEq

def initState : WaveState := ⟨[], WAVE_ADDR_START⟩

/-- Window filter of `collect_wave_dumps` line 85:
`WAVE_ADDR_START <= addr <= WAVE_ADDR_END`. -/
def inWindow (e : Event) : Bool :=
  decide (WAVE_ADDR_START ≤ e.addr) && decide (e.addr ≤ WAVE_ADDR_END)

/-- Lines 100-108 of `collect_wave_dumps`: append the value, advance
`expected_addr` with wraparound, and emit on reaching 16 bytes. -/
def appendValue (emitted : List (List Nat)) (current : List Nat) (expected : Nat)
    (v : Nat) : List (List Nat) × WaveState :=
  let current2 := current ++ [v]
  let expected2 := expected + 1
  let expected3 := if WAVE_ADDR_END < expected2 then WAVE_ADDR_START else expected2
  if current2.length = 16 then (emitted ++ [current2], ⟨[], WAVE_ADDR_START⟩)
  else (emitted, ⟨current2, expected3⟩)

/-- Lines 88-108 of `collect_wave_dumps`: the loop body after the window
filter. Returns the dumps emitted by this event and the new state. -/
def coreStep (st : WaveState) (e : Event) : List (List Nat) × WaveState :=
  let r :=
    if e.addr = WAVE_ADDR_START ∧ st.current ≠ [] then
      ((if st.current.length = 16 then [st.current] else []), ([] : List Nat),
        WAVE_ADDR_START)
    else ([], st.current, st.expected_addr)
  if e.addr ≠ r.2.2 then
    if e.addr ≠ WAVE_ADDR_START then (r.1, ⟨[], WAVE_ADDR_START⟩)
    else appendValue r.1 [] WAVE_ADDR_START e.value
  else appendValue r.1 r.2.1 r.2.2 e.value

/-- One matched event through lines 84-108: out-of-window events are skipped
(`continue`), in-window events go through `coreStep`. -/
def waveStep (st : WaveState) (e : Event) : List (List Nat) × WaveState :=
  if inWindow e then coreStep st e else ([], st)

/-- The event loop of `collect_wave_dumps`, threading emitted dumps and state. -/
def foldSteps (acc : List (List Nat) × WaveState) (es : List Event) :
    List (List Nat) × WaveState :=
  es.foldl (fun a e => (a.1 ++ (waveStep a.2 e).1, (waveStep a.2 e).2)) acc

/-- Lines 110-111: after the loop, a leftover accumulator of exactly 16 bytes
is emitted; anything else is dropped. -/
def finalize (p : List (List Nat) × WaveState) : List (List Nat) :=
  if p.2.current ≠ [] ∧ p.2.current.length = 16 then p.1 ++ [p.2.current] else p.1

/-- `collect_wave_dumps` restricted to an already-matched event sequence. -/
def collectFromEvents (es : List Event) : List (List Nat) :=
  finalize (foldSteps ([], initState) es)

/-- `collect_wave_dumps(log_data)`: split into lines, match each line, and run
the reconstruction state machine. -/
def collect_wave_dumps (log : List Char) : List (List Nat) :=
  collectFromEvents ((splitlines log).filterMap waveReadSearch)

/-- The reconstructor with the defensive re-emission of line 89-90 removed:
a restart discards the accumulator without ever emitting it. Everything else
is identical to `coreStep`. -/
def coreStepNoDefensive (st : WaveState) (e : Event) : List (List Nat) × WaveState :=
  let r :=
    if e.addr = WAVE_ADDR_START ∧ st.current ≠ [] then
      (([] : List (List Nat)), ([] : List Nat), WAVE_ADDR_START)
    else ([], st.current, st.expected_addr)
  if e.addr ≠ r.2.2 then
    if e.addr ≠ WAVE_ADDR_START then (r.1, ⟨[], WAVE_ADDR_START⟩)
    else appendValue r.1 [] WAVE_ADDR_START e.value
  else appendValue r.1 r.2.1 r.2.2 e.value

def waveStepNoDefensive (st : WaveState) (e : Event) : List (List Nat) × WaveState :=
  if inWindow e then coreStepNoDefensive st e else ([], st)

def foldStepsNoDefensive (acc : List (List Nat) × WaveState) (es : List Event) :
    List (List Nat) × WaveState :=
  es.foldl (fun a e => (a.1 ++ (waveStepNoDefensive a.2 e).1, (waveStepNoDefensive a.2 e).2)) acc

def collectFromEventsNoDefensive (es : List Event) : List (List Nat) :=
  finalize (foldStepsNoDefensive ([], initState) es)

def CRC32_POLY : Nat := 0xEDB88320

/-- One bit step of the reflected CRC-32. -/
def crc32Round (c : Nat) : Nat :=
  if c % 2 = 1 then (c / 2) ^^^ CRC32_POLY else c / 2

def crc32Rounds : Nat → Nat → Nat
  | 0, c => c
  | n + 1, c => crc32Rounds n (crc32Round c)

def crc32Update (c b : Nat) : Nat := crc32Rounds 8 (c ^^^ (b % 256))

/-- `zlib.crc32`, modelled bitwise: standard CRC-32 (poly `0xEDB88320`,
initial value and final xor `0xFFFFFFFF`). -/
def crc32 (bs : List Nat) : Nat :=
  (bs.foldl crc32Update 0xFFFFFFFF) ^^^ 0xFFFFFFFF

/-- Outcome of the reporting tail of `main`: either the failure exit (status 1,
"No complete wave RAM dumps found") or the success report carrying the masked
CRC-32, the total byte count, and the dumps that were printed. -/
inductive MainOutcome where
  | noDumps : MainOutcome
  | report : Nat → Nat → List (List Nat) → MainOutcome
deriving DecidableEq

/-- Lines 139-151 of `main`: collect dumps from the log text; with zero dumps
exit with failure, otherwise concatenate and report the checksum. -/
def mainOutcome (log : List Char) : MainOutcome :=
  let dumps := collect_wave_dumps log
  if dumps = [] then MainOutcome.noDumps
  else
    let stream := dumps.flatten
    MainOutcome.report ((crc32 stream) &&& 0xFFFFFFFF) stream.length dumps

/-- The events `⟨a, v₀⟩, ⟨a+1, v₁⟩, …` of a contiguous ascending run starting
at address `a` carrying the values `vs`. -/
def runFrom (a : Nat) : List Nat → List Event
  | [] => []
  | v :: vs => ⟨a, v⟩ :: runFrom (a + 1) vs

/-- `d` is a complete dump read off 16 consecutive events of `ws` starting at
index `o`: those events are exactly the ascending window run carrying `d`. -/
def isRunAt (ws : List Event) (o : Nat) (d : List Nat) : Prop :=
  d.length = 16 ∧ (ws.drop o).take 16 = runFrom WAVE_ADDR_START d

/-- The state invariant of the reconstructor: the accumulator never reaches 16
bytes between events, and `expected_addr` tracks its length from `START`. -/
def WaveInv (st : WaveState) : Prop :=
  st.expected_addr = WAVE_ADDR_START + st.current.length ∧ st.current.length ≤ 15

/-- A concrete log: one clean 16-read cycle of the window with values 1..16,
with a noise line interleaved. -/
def sampleLog : String :=
  "boot\n" ++
  "apu.ch3 wave read addr=0xFF30 result=0x01\n" ++
  "apu.ch3 wave read addr=0xFF31 result=0x02\n" ++
  "apu.ch3 wave read addr=0xFF32 result=0x03\n" ++
  "apu.ch3 wave read addr=0xFF33 result=0x04\n" ++
  "apu.ch3 wave read addr=0xFF34 result=0x05\n" ++
  "apu.ch3 wave read addr=0xFF35 result=0x06\n" ++
  "apu.ch3 wave read addr=0xFF36 result=0x07\n" ++
  "apu.ch3 wave read addr=0xFF37 result=0x08\n" ++
  "noise line\n" ++
  "apu.ch3 wave read addr=0xFF38 result=0x09\n" ++
  "apu.ch3 wave read addr=0xFF39 result=0x0A\n" ++
  "apu.ch3 wave read addr=0xFF3A result=0x0B\n" ++
  "apu.ch3 wave read addr=0xFF3B result=0x0C\n" ++
  "apu.ch3 wave read addr=0xFF3C result=0x0D\n" ++
  "apu.ch3 wave read addr=0xFF3D result=0x0E\n" ++
  "apu.ch3 wave read addr=0xFF3E result=0x0F\n" ++
  "apu.ch3 wave read addr=0xFF3F result=0x10\n"

example : waveReadSearch "apu.ch3 wave read addr=0x1111 result=0x22 addr=0x3333 result=0x44".data
    = some ⟨0x3333, 0x44⟩ := by rfl

example : waveReadSearch "apu.ch3 wave read addr=0x1111 xx result=0x22 addr=0x3333 nothing".data
    = some ⟨0x1111, 0x22⟩ := by rfl

example : waveReadSearch "apu.ch3 wave read addr=0xFF30 result=0xAB".data
    = some ⟨0xFF30, 0xAB⟩ := by rfl

example : waveReadSearch "apu.ch3 wave read addr=0x12Z4 addr=0xBEEF result=0x33".data
    = some ⟨0xBEEF, 0x33⟩ := by rfl

example : waveReadSearch "noise addr=0x1234 result=0x56".data = none := by rfl

example : waveReadSearch "apu.ch3 wave read result=0x55 addr=0x1234".data = none := by rfl

example : waveReadSearch "apu.ch3 wave read addr=0x12345 result=0x678".data
    = some ⟨0x1234, 0x67⟩ := by rfl

example : splitlines "a\nb\rc\r\nd\x0be".data = [['a'], ['b'], ['c'], ['d'], ['e']] := by rfl

example : splitlines "".data = [] := by rfl

example : splitlines "\n\n".data = [[], []] := by rfl

example : crc32 [] = 0 := by rfl

/-! ## Fold and step lemmas -/

theorem foldSteps_nil (acc : List (List Nat) × WaveState) : foldSteps acc [] = acc := rfl

theorem foldSteps_cons (acc : List (List Nat) × WaveState) (e : Event) (es : List Event) :
    foldSteps acc (e :: es) =
      foldSteps (acc.1 ++ (waveStep acc.2 e).1, (waveStep acc.2 e).2) es := rfl

theorem waveStep_skip (st : WaveState) (e : Event) (h : inWindow e = false) :
    waveStep st e = ([], st) := by
  simp [waveStep, h]

theorem waveStep_core (st : WaveState) (e : Event) (h : inWindow e = true) :
    waveStep st e = coreStep st e := by
  simp [waveStep, h]

theorem foldSteps_filter (es : List Event) :
    ∀ acc, foldSteps acc (es.filter inWindow) = foldSteps acc es := by
  induction es with
  | nil => intro acc; rfl
  | cons e es ih =>
    intro acc
    cases h : inWindow e with
    | false =>
      rw [List.filter_cons_of_neg (by simp [h]), foldSteps_cons, waveStep_skip _ _ h]
      simp only [List.append_nil]
      exact ih acc
    | true =>
      rw [List.filter_cons_of_pos (by simp [h]), foldSteps_cons, foldSteps_cons]
      exact ih _

theorem appendValue_fst (emitted : List (List Nat)) (current : List Nat) (expected v : Nat) :
    (appendValue emitted current expected v).1 =
      if (current ++ [v]).length = 16 then emitted ++ [current ++ [v]] else emitted := by
  simp only [appendValue]
  split <;> rfl

theorem appendValue_snd (emitted : List (List Nat)) (current : List Nat) (expected v : Nat) :
    (appendValue emitted current expected v).2 =
      if (current ++ [v]).length = 16 then (⟨[], WAVE_ADDR_START⟩ : WaveState)
      else ⟨current ++ [v],
        if WAVE_ADDR_END < expected + 1 then WAVE_ADDR_START else expected + 1⟩ := by
  simp only [appendValue]
  split <;> rfl

theorem coreStep_restart (st : WaveState) (e : Event) (h1 : e.addr = WAVE_ADDR_START)
    (h2 : st.current ≠ []) :
    coreStep st e =
      appendValue (if st.current.length = 16 then [st.current] else [])
        [] WAVE_ADDR_START e.value := by
  simp only [coreStep, if_pos (And.intro h1 h2)]
  rw [if_neg (by simp [h1])]

theorem coreStep_cont (st : WaveState) (e : Event)
    (h0 : ¬(e.addr = WAVE_ADDR_START ∧ st.current ≠ []))
    (h1 : e.addr = st.expected_addr) :
    coreStep st e = appendValue [] st.current st.expected_addr e.value := by
  simp only [coreStep, if_neg h0]
  rw [if_neg (by simp [h1])]

theorem coreStep_break (st : WaveState) (e : Event)
    (h0 : ¬(e.addr = WAVE_ADDR_START ∧ st.current ≠ []))
    (h1 : e.addr ≠ st.expected_addr) (h2 : e.addr ≠ WAVE_ADDR_START) :
    coreStep st e = ([], ⟨[], WAVE_ADDR_START⟩) := by
  simp only [coreStep, if_neg h0]
  rw [if_pos (by simpa using h1), if_pos (by simpa using h2)]

theorem coreStep_newstart (st : WaveState) (e : Event)
    (h0 : ¬(e.addr = WAVE_ADDR_START ∧ st.current ≠ []))
    (h1 : e.addr ≠ st.expected_addr) (h2 : e.addr = WAVE_ADDR_START) :
    coreStep st e = appendValue [] [] WAVE_ADDR_START e.value := by
  simp only [coreStep, if_neg h0]
  rw [if_pos (by simpa using h1), if_neg (by simpa using h2)]

/-! ## Every emitted dump has 16 bytes -/

theorem appendValue_fst_length (emitted : List (List Nat)) (current : List Nat)
    (expected v : Nat) (h : ∀ d ∈ emitted, d.length = 16) :
    ∀ d ∈ (appendValue emitted current expected v).1, d.length = 16 := by
  intro d hd
  rw [appendValue_fst] at hd
  split at hd
  case isTrue h16 =>
    rcases List.mem_append.1 hd with h' | h'
    · exact h d h'
    · rw [List.mem_singleton.1 h']
      exact h16
  case isFalse => exact h d hd

theorem coreStep_fst_length (st : WaveState) (e : Event) :
    ∀ d ∈ (coreStep st e).1, d.length = 16 := by
  by_cases h0 : e.addr = WAVE_ADDR_START ∧ st.current ≠ []
  · rw [coreStep_restart st e h0.1 h0.2]
    apply appendValue_fst_length
    intro d hd
    split at hd
    next h16 =>
      rw [List.mem_singleton.1 hd]
      exact h16
    next => simp at hd
  · by_cases h1 : e.addr = st.expected_addr
    · rw [coreStep_cont st e h0 h1]
      apply appendValue_fst_length
      intro d hd
      simp at hd
    · by_cases h2 : e.addr = WAVE_ADDR_START
      · rw [coreStep_newstart st e h0 h1 h2]
        apply appendValue_fst_length
        intro d hd
        simp at hd
      · rw [coreStep_break st e h0 h1 h2]
        intro d hd
        simp at hd

theorem waveStep_fst_length (st : WaveState) (e : Event) :
    ∀ d ∈ (waveStep st e).1, d.length = 16 := by
  cases h : inWindow e with
  | false => rw [waveStep_skip st e h]; intro d hd; simp at hd
  | true => rw [waveStep_core st e h]; exact coreStep_fst_length st e

theorem foldSteps_fst_length (es : List Event) :
    ∀ acc, (∀ d ∈ acc.1, d.length = 16) →
      ∀ d ∈ (foldSteps acc es).1, d.length = 16 := by
  induction es with
  | nil => intro acc h; exact h
  | cons e es ih =>
    intro acc h
    rw [foldSteps_cons]
    apply ih
    intro d hd
    rcases List.mem_append.1 hd with h' | h'
    · exact h d h'
    · exact waveStep_fst_length acc.2 e d h'

theorem collectFromEvents_length (es : List Event) :
    ∀ d ∈ collectFromEvents es, d.length = 16 := by
  intro d hd
  unfold collectFromEvents finalize at hd
  split at hd
  case isTrue h16 =>
    rcases List.mem_append.1 hd with h' | h'
    · exact foldSteps_fst_length es ([], initState) (by intro d hd; simp at hd) d h'
    · rw [List.mem_singleton.1 h']
      exact h16.2
  case isFalse =>
    exact foldSteps_fst_length es ([], initState) (by intro d hd; simp at hd) d hd

/-- C1: every dump in the list returned by `collect_wave_dumps` has length
exactly `WINDOW_SIZE = 16`; no shorter or longer dump is ever emitted. -/
theorem C1_dump_length (log : List Char) :
    ∀ d ∈ collect_wave_dumps log, d.length = 16 := by
  intro d hd
  exact collectFromEvents_length _ d hd

/-- Witness for C1 at a concrete log text producing one dump. -/
theorem C1_dump_length_witness :
    [1, 2, 3, 4, 5, 6, 7, 8, 9, 10, 11, 12, 13, 14, 15, 16] ∈
        collect_wave_dumps sampleLog.data ∧
      ([1, 2, 3, 4, 5, 6, 7, 8, 9, 10, 11, 12, 13, 14, 15, 16] : List Nat).length = 16 :=
  ⟨by decide, C1_dump_length sampleLog.data _ (by decide)⟩

/-- C3: events outside the closed window `[0xFF30, 0xFF3F]` never influence the
output: removing them from the event sequence leaves the dump list unchanged. -/
theorem C3_window_filter (es : List Event) :
    collectFromEvents (es.filter inWindow) = collectFromEvents es := by
  unfold collectFromEvents
  rw [foldSteps_filter]

/-! ## The state invariant and its preservation -/

theorem waveInv_init : WaveInv initState :=
  ⟨by simp [initState], by simp [initState]⟩

theorem appendValue_inv (emitted : List (List Nat)) (current : List Nat) (v : Nat)
    (h : current.length ≤ 15) :
    WaveInv (appendValue emitted current (WAVE_ADDR_START + current.length) v).2 := by
  rw [appendValue_snd]
  split
  next => simp [WaveInv]
  next h16 =>
    have h14 : current.length ≤ 14 := by
      simp only [List.length_append, List.length_singleton] at h16
      omega
    rw [if_neg (by simp only [WAVE_ADDR_START, WAVE_ADDR_END]; omega)]
    refine ⟨?_, ?_⟩ <;> simp <;> omega

theorem coreStep_inv (st : WaveState) (e : Event) (h : WaveInv st) :
    WaveInv (coreStep st e).2 := by
  obtain ⟨hexp, hlen⟩ := h
  by_cases h0 : e.addr = WAVE_ADDR_START ∧ st.current ≠ []
  · rw [coreStep_restart st e h0.1 h0.2]
    have := appendValue_inv (if st.current.length = 16 then [st.current] else [])
      [] e.value (by simp)
    simpa using this
  · by_cases h1 : e.addr = st.expected_addr
    · rw [coreStep_cont st e h0 h1, hexp]
      exact appendValue_inv [] st.current e.value hlen
    · by_cases h2 : e.addr = WAVE_ADDR_START
      · rw [coreStep_newstart st e h0 h1 h2]
        have := appendValue_inv [] [] e.value (by simp)
        simpa using this
      · rw [coreStep_break st e h0 h1 h2]
        exact ⟨by simp, by simp⟩

theorem waveStep_inv (st : WaveState) (e : Event) (h : WaveInv st) :
    WaveInv (waveStep st e).2 := by
  cases hw : inWindow e with
  | false => rw [waveStep_skip st e hw]; exact h
  | true => rw [waveStep_core st e hw]; exact coreStep_inv st e h

theorem foldSteps_inv (es : List Event) :
    ∀ acc, WaveInv acc.2 → WaveInv (foldSteps acc es).2 := by
  induction es with
  | nil => intro acc h; exact h
  | cons e es ih =>
    intro acc h
    rw [foldSteps_cons]
    exact ih _ (waveStep_inv acc.2 e h)

/-- C10: after processing any prefix of events (so between any two consecutive
events, initially and finally) the accumulator holds at most 15 bytes,
`expected_addr = START + len(accumulator)`, and `expected_addr` lies inside
the window `[START, END]`. -/
theorem C10_state_invariant (es : List Event) :
    (foldSteps ([], initState) es).2.expected_addr
        = WAVE_ADDR_START + (foldSteps ([], initState) es).2.current.length ∧
      (foldSteps ([], initState) es).2.current.length ≤ 15 ∧
      WAVE_ADDR_START ≤ (foldSteps ([], initState) es).2.expected_addr ∧
      (foldSteps ([], initState) es).2.expected_addr ≤ WAVE_ADDR_END := by
  obtain ⟨h1, h2⟩ := foldSteps_inv es ([], initState) waveInv_init
  refine ⟨h1, h2, by omega, ?_⟩
  rw [h1]
  simp only [WAVE_ADDR_START, WAVE_ADDR_END]
  omega

/-- C4: from a state whose expected address `a` differs from `START`, an
in-window event whose address is neither `a` nor `START` is discarded after a
full reset (state becomes `(empty, START)`, nothing emitted); an in-window
event at `START` starts a new run holding exactly that event's value. -/
theorem C4_out_of_order (cur : List Nat) (a : Nat) (e : Event)
    (_ha : a ≠ WAVE_ADDR_START) (hw : inWindow e = true) (hne : e.addr ≠ a) :
    (e.addr ≠ WAVE_ADDR_START →
        waveStep ⟨cur, a⟩ e = ([], ⟨[], WAVE_ADDR_START⟩)) ∧
      (e.addr = WAVE_ADDR_START →
        (waveStep ⟨cur, a⟩ e).2 = ⟨[e.value], WAVE_ADDR_START + 1⟩) := by
  constructor
  · intro h2
    rw [waveStep_core _ _ hw, coreStep_break ⟨cur, a⟩ e (by simp [h2]) hne h2]
  · intro h2
    rw [waveStep_core _ _ hw]
    by_cases hc : cur = []
    · subst hc
      rw [coreStep_newstart ⟨[], a⟩ e (by simp) hne h2]
      rw [appendValue_snd, if_neg (by simp)]
      simp [WAVE_ADDR_START, WAVE_ADDR_END]
    · rw [coreStep_restart ⟨cur, a⟩ e h2 hc]
      rw [appendValue_snd, if_neg (by simp)]
      simp [WAVE_ADDR_START, WAVE_ADDR_END]

/-- Witness for C4 at a concrete state and event. -/
theorem C4_out_of_order_witness :
    waveStep ⟨[5], WAVE_ADDR_START + 5⟩ ⟨WAVE_ADDR_START + 7, 9⟩
      = ([], ⟨[], WAVE_ADDR_START⟩) :=
  (C4_out_of_order [5] (WAVE_ADDR_START + 5) ⟨WAVE_ADDR_START + 7, 9⟩
    (by decide) (by decide) (by decide)).1 (by decide)

theorem waveStep_restart_partial (cur : List Nat) (exp v : Nat)
    (hne : cur ≠ []) (hlt : cur.length < 16) :
    waveStep ⟨cur, exp⟩ ⟨WAVE_ADDR_START, v⟩
      = ([], ⟨[v], WAVE_ADDR_START + 1⟩) := by
  rw [waveStep_core _ _ (by simp [inWindow, WAVE_ADDR_START, WAVE_ADDR_END])]
  rw [coreStep_restart ⟨cur, exp⟩ ⟨WAVE_ADDR_START, v⟩ rfl hne]
  rw [if_neg (show ¬(cur.length = 16) by omega)]
  simp [appendValue, WAVE_ADDR_START, WAVE_ADDR_END]

/-- C5: from any state with a non-empty accumulator of fewer than 16 bytes, an
event at address `START` discards the partial accumulator without emitting a
dump, and begins a new run whose first byte is that event's value. -/
theorem C5_restart_discards (cur : List Nat) (exp v : Nat)
    (hne : cur ≠ []) (hlt : cur.length < 16) :
    waveStep ⟨cur, exp⟩ ⟨WAVE_ADDR_START, v⟩
      = ([], ⟨[v], WAVE_ADDR_START + 1⟩) :=
  waveStep_restart_partial cur exp v hne hlt

/-- Witness for C5 at a concrete 3-byte accumulator. -/
theorem C5_restart_discards_witness :
    waveStep ⟨[1, 2, 3], WAVE_ADDR_START + 3⟩ ⟨WAVE_ADDR_START, 7⟩
      = ([], ⟨[7], WAVE_ADDR_START + 1⟩) :=
  C5_restart_discards [1, 2, 3] (WAVE_ADDR_START + 3) 7 (by decide) (by decide)

/-! ## The defensive re-emission branch is behavior-preserving dead code -/

theorem foldStepsNoDefensive_nil (acc : List (List Nat) × WaveState) :
    foldStepsNoDefensive acc [] = acc := rfl

theorem foldStepsNoDefensive_cons (acc : List (List Nat) × WaveState) (e : Event)
    (es : List Event) :
    foldStepsNoDefensive acc (e :: es) =
      foldStepsNoDefensive
        (acc.1 ++ (waveStepNoDefensive acc.2 e).1, (waveStepNoDefensive acc.2 e).2) es := rfl

theorem coreStepNoDefensive_eq (st : WaveState) (e : Event)
    (h : st.current.length ≤ 15) :
    coreStepNoDefensive st e = coreStep st e := by
  simp only [coreStep, coreStepNoDefensive]
  rw [if_neg (show ¬(st.current.length = 16) by omega)]

theorem waveStepNoDefensive_eq (st : WaveState) (e : Event)
    (h : st.current.length ≤ 15) :
    waveStepNoDefensive st e = waveStep st e := by
  cases hw : inWindow e with
  | false => simp [waveStepNoDefensive, waveStep, hw]
  | true => simp [waveStepNoDefensive, waveStep, hw, coreStepNoDefensive_eq st e h]

theorem foldStepsNoDefensive_eq (es : List Event) :
    ∀ acc, WaveInv acc.2 → foldStepsNoDefensive acc es = foldSteps acc es := by
  induction es with
  | nil => intro acc h; rfl
  | cons e es ih =>
    intro acc h
    rw [foldStepsNoDefensive_cons, foldSteps_cons, waveStepNoDefensive_eq acc.2 e h.2]
    exact ih _ (waveStep_inv acc.2 e h)

/-- C9: the defensive re-emission branch (emit on restart when the accumulator
holds 16 bytes) is behavior-preserving dead code: the reconstructor with that
branch removed returns the identical dump sequence on every input. -/
theorem C9_defensive_equiv (es : List Event) :
    collectFromEventsNoDefensive es = collectFromEvents es := by
  unfold collectFromEventsNoDefensive collectFromEvents
  rw [foldStepsNoDefensive_eq es ([], initState) waveInv_init]

/-! ## Clean runs through the machine -/

theorem runFrom_cons (a v : Nat) (vs : List Nat) :
    runFrom a (v :: vs) = ⟨a, v⟩ :: runFrom (a + 1) vs := rfl

theorem runFrom_append (xs ys : List Nat) :
    ∀ a, runFrom a (xs ++ ys) = runFrom a xs ++ runFrom (a + xs.length) ys := by
  induction xs with
  | nil => intro a; simp [runFrom]
  | cons x xs ih =>
    intro a
    simp only [List.cons_append, runFrom_cons, ih (a + 1), List.length_cons]
    rw [show a + 1 + xs.length = a + (xs.length + 1) by omega]

theorem runFrom_length (vs : List Nat) : ∀ a, (runFrom a vs).length = vs.length := by
  induction vs with
  | nil => intro a; rfl
  | cons v vs ih => intro a; simp [runFrom_cons, ih]

theorem appendValue_mid (cur : List Nat) (v : Nat) (h : cur.length ≤ 14) :
    appendValue [] cur (WAVE_ADDR_START + cur.length) v
      = ([], ⟨cur ++ [v], WAVE_ADDR_START + (cur.length + 1)⟩) := by
  simp only [appendValue]
  rw [if_neg (show ¬((cur ++ [v]).length = 16) by simp; omega),
    if_neg (show ¬(WAVE_ADDR_END < WAVE_ADDR_START + cur.length + 1) by
      simp only [WAVE_ADDR_START, WAVE_ADDR_END]; omega)]
  rw [Nat.add_assoc]

theorem step_expected (cur : List Nat) (v : Nat) (h : cur.length ≤ 14) :
    waveStep ⟨cur, WAVE_ADDR_START + cur.length⟩ ⟨WAVE_ADDR_START + cur.length, v⟩
      = ([], ⟨cur ++ [v], WAVE_ADDR_START + (cur.length + 1)⟩) := by
  rw [waveStep_core _ _ (by
    simp only [inWindow, WAVE_ADDR_START, WAVE_ADDR_END]
    simp
    omega)]
  rcases List.eq_nil_or_concat cur with hc | _
  · subst hc
    rw [coreStep_cont _ _ (by simp) rfl]
    exact appendValue_mid [] v (by simp)
  · rw [coreStep_cont _ _ ?_ rfl]
    · exact appendValue_mid cur v h
    · rintro ⟨h1, h2⟩
      have : cur.length = 0 := by
        simp only [WAVE_ADDR_START] at h1
        omega
      exact h2 (List.length_eq_zero.1 this)

theorem step_sixteenth (cur : List Nat) (v : Nat) (h : cur.length = 15) :
    waveStep ⟨cur, WAVE_ADDR_START + 15⟩ ⟨WAVE_ADDR_START + 15, v⟩
      = ([cur ++ [v]], ⟨[], WAVE_ADDR_START⟩) := by
  rw [waveStep_core _ _ (by
    simp only [inWindow, WAVE_ADDR_START, WAVE_ADDR_END]
    simp)]
  rw [coreStep_cont _ _ (by
    rintro ⟨h1, _⟩
    simp only [WAVE_ADDR_START] at h1
    omega) rfl]
  simp only [appendValue]
  rw [if_pos (by simp [h])]
  rw [List.nil_append]

theorem foldSteps_append (acc : List (List Nat) × WaveState) (es1 es2 : List Event) :
    foldSteps acc (es1 ++ es2) = foldSteps (foldSteps acc es1) es2 :=
  List.foldl_append _ _ _ _

theorem foldSteps_run (vs : List Nat) :
    ∀ (cur : List Nat) (dumps : List (List Nat)), cur.length + vs.length ≤ 15 →
      foldSteps (dumps, ⟨cur, WAVE_ADDR_START + cur.length⟩)
          (runFrom (WAVE_ADDR_START + cur.length) vs)
        = (dumps, ⟨cur ++ vs, WAVE_ADDR_START + (cur.length + vs.length)⟩) := by
  induction vs with
  | nil => intro cur dumps h; simp [runFrom, foldSteps_nil]
  | cons v vs ih =>
    intro cur dumps h
    rw [runFrom_cons, foldSteps_cons]
    have hstep := step_expected cur v (by simp at h; omega)
    simp only [hstep, List.append_nil]
    have := ih (cur ++ [v]) dumps (by simp at h ⊢; omega)
    simp only [List.length_append, List.length_singleton] at this
    rw [show WAVE_ADDR_START + cur.length + 1 = WAVE_ADDR_START + (cur.length + 1) by omega]
    rw [this]
    simp only [List.append_assoc, List.singleton_append, List.length_cons]
    rw [show cur.length + 1 + vs.length = cur.length + (vs.length + 1) by omega]

theorem foldSteps_run0 (vs : List Nat) (dumps : List (List Nat))
    (h : vs.length ≤ 15) :
    foldSteps (dumps, initState) (runFrom WAVE_ADDR_START vs)
      = (dumps, ⟨vs, WAVE_ADDR_START + vs.length⟩) := by
  have := foldSteps_run vs [] dumps (by simpa using h)
  simpa [initState] using this

/-- C6: terminal handling. At end of input an accumulator of exactly 16 bytes
is emitted and any shorter one is discarded: a trailing 10-of-16 run yields no
dump, and a single complete 16-byte run with no trailing START event yields
exactly one dump. -/
theorem C6_terminal :
    (∀ (dumps : List (List Nat)) (st : WaveState), st.current ≠ [] →
        st.current.length = 16 → finalize (dumps, st) = dumps ++ [st.current]) ∧
      (∀ (dumps : List (List Nat)) (st : WaveState), st.current.length < 16 →
        finalize (dumps, st) = dumps) ∧
      (∀ vs : List Nat, vs.length = 10 →
        collectFromEvents (runFrom WAVE_ADDR_START vs) = []) ∧
      (∀ vs : List Nat, vs.length = 16 →
        collectFromEvents (runFrom WAVE_ADDR_START vs) = [vs]) := by
  refine ⟨?_, ?_, ?_, ?_⟩
  · intro dumps st h1 h2
    show (if st.current ≠ [] ∧ st.current.length = 16
        then dumps ++ [st.current] else dumps) = dumps ++ [st.current]
    rw [if_pos ⟨h1, h2⟩]
  · intro dumps st h1
    show (if st.current ≠ [] ∧ st.current.length = 16
        then dumps ++ [st.current] else dumps) = dumps
    rw [if_neg (by rintro ⟨_, h2⟩; omega)]
  · intro vs h10
    unfold collectFromEvents
    rw [foldSteps_run0 vs [] (by omega)]
    show (if vs ≠ [] ∧ vs.length = 16 then [] ++ [vs] else []) = []
    rw [if_neg (by rintro ⟨_, h2⟩; omega)]
  · intro vs h16
    unfold collectFromEvents
    have hne : vs ≠ [] := by rintro rfl; simp at h16
    obtain ⟨us, w, rfl⟩ : ∃ us w, vs = us ++ [w] := by
      rcases List.eq_nil_or_concat vs with h | ⟨us, w, h⟩
      · exact absurd h hne
      · exact ⟨us, w, by rw [h, List.concat_eq_append]⟩
    have hus : us.length = 15 := by simp at h16; omega
    rw [runFrom_append us [w] WAVE_ADDR_START, foldSteps_append,
      foldSteps_run0 us [] (by omega), hus]
    rw [show runFrom (WAVE_ADDR_START + 15) [w] = [⟨WAVE_ADDR_START + 15, w⟩] from rfl]
    rw [foldSteps_cons]
    have hstep := step_sixteenth us w hus
    simp only [hstep, foldSteps_nil, List.nil_append]
    show (if ([] : List Nat) ≠ [] ∧ ([] : List Nat).length = 16
        then [us ++ [w]] ++ [([] : List Nat)] else [us ++ [w]]) = [us ++ [w]]
    rw [if_neg (by rintro ⟨h1, _⟩; exact h1 rfl)]

/-- Witness for C6 at concrete states and runs. -/
theorem C6_terminal_witness :
    finalize ([], ⟨List.replicate 16 2, 0⟩) = [List.replicate 16 2] ∧
      finalize ([[9]], ⟨List.replicate 10 3, 0⟩) = [[9]] ∧
      collectFromEvents (runFrom WAVE_ADDR_START (List.replicate 10 3)) = [] ∧
      collectFromEvents (runFrom WAVE_ADDR_START (List.replicate 16 2))
        = [List.replicate 16 2] :=
  ⟨C6_terminal.1 [] ⟨List.replicate 16 2, 0⟩ (by decide) (by decide),
    C6_terminal.2.1 [[9]] ⟨List.replicate 10 3, 0⟩ (by decide),
    C6_terminal.2.2.1 (List.replicate 10 3) (by decide),
    C6_terminal.2.2.2 (List.replicate 16 2) (by decide)⟩

/-! ## Zero dumps is a distinguished failure outcome -/

/-- C8: zero reconstructed dumps yield the failure outcome, distinct from any
success report; every success report covers at least one 16-byte dump, so no
checksum of an empty byte stream is ever reported as success. -/
theorem C8_zero_dumps (log : List Char) :
    (collect_wave_dumps log = [] ↔ mainOutcome log = MainOutcome.noDumps) ∧
      (∀ c n ds, mainOutcome log = MainOutcome.report c n ds → 16 ≤ n) := by
  by_cases h : collect_wave_dumps log = []
  · constructor
    · simp [mainOutcome, h]
    · intro c n ds hrep
      simp [mainOutcome, h] at hrep
  · constructor
    · simp [mainOutcome, h]
    · intro c n ds hrep
      simp only [mainOutcome, if_neg h] at hrep
      obtain ⟨d, rest, hcons⟩ := List.exists_cons_of_ne_nil h
      have hd : d.length = 16 := by
        apply collectFromEvents_length ((splitlines log).filterMap waveReadSearch) d
        rw [show collectFromEvents ((splitlines log).filterMap waveReadSearch)
          = collect_wave_dumps log from rfl, hcons]
        exact List.mem_cons_self d rest
      have hn : n = (collect_wave_dumps log).flatten.length := by
        rcases hrep with ⟨_, h2, _⟩
        omega
      rw [hn, hcons]
      simp [hd]

/-- Witness for C8: the empty log fails, and the sample log reports 16 bytes. -/
theorem C8_zero_dumps_witness :
    (collect_wave_dumps "".data = [] ↔ mainOutcome "".data = MainOutcome.noDumps) ∧
      16 ≤ 16 :=
  ⟨(C8_zero_dumps "".data).1,
    (C8_zero_dumps sampleLog.data).2 0x094C80F1 16
      [[1, 2, 3, 4, 5, 6, 7, 8, 9, 10, 11, 12, 13, 14, 15, 16]] (by decide)⟩

/-! ## Provenance: each dump is 16 consecutive in-window events -/

theorem waveStep_break_discard (st : WaveState) (e : Event) (hw : inWindow e = true)
    (h1 : e.addr ≠ st.expected_addr) (h2 : e.addr ≠ WAVE_ADDR_START) :
    waveStep st e = ([], ⟨[], WAVE_ADDR_START⟩) := by
  rw [waveStep_core _ _ hw,
    coreStep_break st e (by rintro ⟨ha, _⟩; exact h2 ha) h1 h2]

theorem getElem?_mid (pre : List Event) (e : Event) (rest : List Event) :
    (pre ++ e :: rest)[pre.length]? = some e := by
  rw [List.getElem?_append_right (le_refl pre.length)]
  simp

theorem drop_mid (pre : List Event) (e : Event) (rest : List Event) :
    (pre ++ e :: rest).drop pre.length = e :: rest :=
  List.drop_left pre (e :: rest)

theorem run_extend (ws : List Event) (n : Nat) (cur : List Nat) (e : Event)
    (hn : cur.length ≤ n)
    (hrun : (ws.drop (n - cur.length)).take cur.length = runFrom WAVE_ADDR_START cur)
    (hget : ws[n]? = some e) (he : e.addr = WAVE_ADDR_START + cur.length) :
    (ws.drop (n - cur.length)).take (cur.length + 1)
      = runFrom WAVE_ADDR_START (cur ++ [e.value]) := by
  rw [List.take_succ, hrun, runFrom_append]
  congr 1
  rw [List.getElem?_drop, show n - cur.length + cur.length = n by omega, hget]
  obtain ⟨ea, ev⟩ := e
  simp only at he
  subst he
  simp [runFrom]

theorem prov_aux :
    ∀ (rest pre : List Event) (dumps : List (List Nat)) (offs : List Nat)
      (cur : List Nat),
      cur.length ≤ 15 →
      cur.length ≤ pre.length →
      List.Forall₂ (isRunAt (pre ++ rest)) offs dumps →
      List.Chain' (fun a b => a + 16 ≤ b) offs →
      (∀ o ∈ offs, o + 16 ≤ pre.length - cur.length) →
      ((pre ++ rest).drop (pre.length - cur.length)).take cur.length
        = runFrom WAVE_ADDR_START cur →
      (∀ e ∈ rest, inWindow e = true) →
      ∃ offs2,
        List.Forall₂ (isRunAt (pre ++ rest)) offs2
            (finalize (foldSteps (dumps, ⟨cur, WAVE_ADDR_START + cur.length⟩) rest)) ∧
          List.Chain' (fun a b => a + 16 ≤ b) offs2 := by
  intro rest
  induction rest with
  | nil =>
    intro pre dumps offs cur h15 hpre hfa hch hbd hrun hwin
    refine ⟨offs, ?_, hch⟩
    rw [foldSteps_nil]
    have hfin : finalize (dumps, ⟨cur, WAVE_ADDR_START + cur.length⟩) = dumps := by
      show (if cur ≠ [] ∧ cur.length = 16 then dumps ++ [cur] else dumps) = dumps
      rw [if_neg (by rintro ⟨_, h2⟩; omega)]
    rw [hfin]
    exact hfa
  | cons e rest ih =>
    intro pre dumps offs cur h15 hpre hfa hch hbd hrun hwin
    obtain ⟨ea, ev⟩ := e
    have hwe : inWindow ⟨ea, ev⟩ = true := hwin _ (List.mem_cons_self _ _)
    have hwin2 : ∀ e ∈ rest, inWindow e = true :=
      fun e he => hwin e (List.mem_cons_of_mem _ he)
    have happ : pre ++ ⟨ea, ev⟩ :: rest = (pre ++ [⟨ea, ev⟩]) ++ rest := by simp
    rw [foldSteps_cons]
    by_cases hA : ea = WAVE_ADDR_START + cur.length
    · by_cases h15' : cur.length = 15
      · -- sixteenth byte: the dump is emitted here
        have hget := getElem?_mid pre ⟨ea, ev⟩ rest
        have hext := run_extend (pre ++ ⟨ea, ev⟩ :: rest) pre.length cur ⟨ea, ev⟩
          (by omega) hrun hget hA
        rw [h15'] at hext
        have hnew : isRunAt (pre ++ ⟨ea, ev⟩ :: rest) (pre.length - 15)
            (cur ++ [ev]) := by
          constructor
          · simp [h15']
          · simpa using hext
        have hstep : waveStep ⟨cur, WAVE_ADDR_START + cur.length⟩ ⟨ea, ev⟩
            = ([cur ++ [ev]], ⟨[], WAVE_ADDR_START⟩) := by
          rw [hA, h15']
          exact step_sixteenth cur ev h15'
        simp only [hstep]
        rw [happ] at hfa hnew ⊢
        have := ih (pre ++ [⟨ea, ev⟩]) (dumps ++ [cur ++ [ev]])
          (offs ++ [pre.length - 15]) []
          (by simp)
          (by simp)
          (List.rel_append hfa (List.Forall₂.cons hnew List.Forall₂.nil))
          (List.chain'_append.2 ⟨hch, List.chain'_singleton _, by
            intro x hx y hy
            simp only [List.head?_cons, Option.mem_def, Option.some.injEq] at hy
            subst hy
            have := hbd x (List.mem_of_mem_getLast? hx)
            omega⟩)
          (by
            intro o ho
            simp only [List.length_append, List.length_singleton, List.length_nil]
            rcases List.mem_append.1 ho with h' | h'
            · have := hbd o h'
              omega
            · rw [List.mem_singleton.1 h']
              omega)
          (by simp [runFrom])
          hwin2
        simpa using this
      · -- append without emission
        have hget := getElem?_mid pre ⟨ea, ev⟩ rest
        have hext := run_extend (pre ++ ⟨ea, ev⟩ :: rest) pre.length cur ⟨ea, ev⟩
          (by omega) hrun hget hA
        have hstep : waveStep ⟨cur, WAVE_ADDR_START + cur.length⟩ ⟨ea, ev⟩
            = ([], ⟨cur ++ [ev], WAVE_ADDR_START + (cur.length + 1)⟩) := by
          rw [hA]
          exact step_expected cur ev (by omega)
        simp only [hstep, List.append_nil]
        rw [happ] at hfa hext ⊢
        have hc2 : (cur ++ [ev]).length = cur.length + 1 := by simp
        rw [show (⟨cur ++ [ev], WAVE_ADDR_START + (cur.length + 1)⟩ : WaveState)
          = ⟨cur ++ [ev], WAVE_ADDR_START + (cur ++ [ev]).length⟩ by rw [hc2]]
        have := ih (pre ++ [⟨ea, ev⟩]) dumps offs (cur ++ [ev])
          (by simp; omega)
          (by simp; omega)
          hfa
          hch
          (by
            intro o ho
            have := hbd o ho
            simp only [List.length_append, List.length_singleton]
            omega)
          (by
            simp only [List.length_append, List.length_singleton]
            rw [show pre.length + 1 - (cur.length + 1) = pre.length - cur.length by omega]
            simpa using hext)
          hwin2
        exact this
    · by_cases hB : ea = WAVE_ADDR_START
      · -- restart: partial accumulator discarded, new run begins
        subst hB
        have hcne : cur ≠ [] := by
          intro h
          apply hA
          rw [h]
          rfl
        have hstep := waveStep_restart_partial cur (WAVE_ADDR_START + cur.length) ev
          hcne (by omega)
        simp only [hstep, List.append_nil]
        rw [happ] at hfa ⊢
        have hrun1 : (((pre ++ [(⟨WAVE_ADDR_START, ev⟩ : Event)]) ++ rest).drop
            pre.length).take 1 = runFrom WAVE_ADDR_START [ev] := by
          rw [← happ, drop_mid]
          simp [runFrom]
        have := ih (pre ++ [⟨WAVE_ADDR_START, ev⟩]) dumps offs [ev]
          (by simp)
          (by simp)
          hfa
          hch
          (by
            intro o ho
            have := hbd o ho
            simp only [List.length_append, List.length_singleton, List.length_cons,
              List.length_nil]
            omega)
          (by simpa using hrun1)
          hwin2
        simpa using this
      · -- gap to a non-START address: full reset, event discarded
        have hstep := waveStep_break_discard ⟨cur, WAVE_ADDR_START + cur.length⟩
          ⟨ea, ev⟩ hwe (by simpa using hA) (by simpa using hB)
        simp only [hstep, List.append_nil]
        rw [happ] at hfa ⊢
        have := ih (pre ++ [⟨ea, ev⟩]) dumps offs []
          (by simp)
          (by simp)
          hfa
          hch
          (by
            intro o ho
            have := hbd o ho
            simp only [List.length_append, List.length_singleton, List.length_nil]
            omega)
          (by simp [runFrom])
          hwin2
        simpa using this

/-- C2: every emitted dump is read off 16 consecutive in-window events whose
addresses ascend from `START` to `END`, byte `i` being the value of the event
at address `START + i`; distinct dumps occupy disjoint event ranges (offsets
are strictly increasing with gaps of at least 16). -/
theorem C2_provenance (es : List Event) :
    ∃ offs : List Nat,
      List.Forall₂ (isRunAt (es.filter inWindow)) offs (collectFromEvents es) ∧
        List.Chain' (fun a b => a + 16 ≤ b) offs := by
  have hcoll : collectFromEvents es
      = finalize (foldSteps ([], initState) (es.filter inWindow)) := by
    unfold collectFromEvents
    rw [foldSteps_filter]
  rw [hcoll]
  have := prov_aux (es.filter inWindow) [] [] [] []
    (by simp)
    (by simp)
    List.Forall₂.nil
    List.chain'_nil
    (by intro o ho; simp at ho)
    (by simp [runFrom])
    (fun e he => List.of_mem_filter he)
  simpa [initState] using this

/-! ## Soundness of the trace-line matcher -/

theorem dropLit_sound : ∀ (lit s r : List Char), dropLit lit s = some r → s = lit ++ r := by
  intro lit
  induction lit with
  | nil =>
    intro s r h
    simp only [dropLit, Option.some.injEq] at h
    simp [h]
  | cons c cs ih =>
    intro s r h
    cases s with
    | nil => simp [dropLit] at h
    | cons x xs =>
      simp only [dropLit] at h
      split at h
      next heq =>
        rw [heq, List.cons_append]
        rw [ih xs r h]
      next => simp at h

theorem takeHex_sound : ∀ (n : Nat) (s ds r : List Char), takeHex n s = some (ds, r) →
    s = ds ++ r ∧ ds.length = n ∧ ∀ c ∈ ds, isHexDigit c = true := by
  intro n
  induction n with
  | zero =>
    intro s ds r h
    simp only [takeHex, Option.some.injEq, Prod.mk.injEq] at h
    obtain ⟨h1, h2⟩ := h
    subst h1
    subst h2
    exact ⟨rfl, rfl, by simp⟩
  | succ n ih =>
    intro s ds r h
    cases s with
    | nil => simp [takeHex] at h
    | cons c cs =>
      simp only [takeHex] at h
      split at h
      next hx =>
        cases ht : takeHex n cs with
        | none => rw [ht] at h; simp at h
        | some p =>
          obtain ⟨ds', r'⟩ := p
          rw [ht] at h
          simp only [Option.map_some', Option.some.injEq, Prod.mk.injEq] at h
          obtain ⟨hds, hr⟩ := h
          obtain ⟨h1, h2, h3⟩ := ih cs ds' r' ht
          subst hds
          subst hr
          refine ⟨by simp [h1], by simp [h2], ?_⟩
          intro x hx'
          rcases List.mem_cons.1 hx' with h' | h'
          · subst h'; exact hx
          · exact h3 x h'
      next => simp at h

theorem readAddr_sound (s : List Char) (a : Nat) (r : List Char)
    (h : readAddr s = some (a, r)) :
    ∃ ds, s = addrLit ++ ds ++ r ∧ ds.length = 4 ∧
      (∀ c ∈ ds, isHexDigit c = true) ∧ a = hexListVal ds := by
  unfold readAddr at h
  split at h
  next => simp at h
  next rest hd =>
    split at h
    next => simp at h
    next ds rest2 ht =>
      simp only [Option.some.injEq, Prod.mk.injEq] at h
      obtain ⟨ha, hr⟩ := h
      obtain ⟨h1, h2, h3⟩ := takeHex_sound 4 rest ds rest2 ht
      subst hr
      refine ⟨ds, ?_, h2, h3, ha.symm⟩
      rw [dropLit_sound _ _ _ hd, h1, List.append_assoc]

theorem readResult_sound (s : List Char) (v : Nat) (r : List Char)
    (h : readResult s = some (v, r)) :
    ∃ vs, s = resultLit ++ vs ++ r ∧ vs.length = 2 ∧
      (∀ c ∈ vs, isHexDigit c = true) ∧ v = hexListVal vs := by
  unfold readResult at h
  split at h
  next => simp at h
  next rest hd =>
    split at h
    next => simp at h
    next vs rest2 ht =>
      simp only [Option.some.injEq, Prod.mk.injEq] at h
      obtain ⟨hv, hr⟩ := h
      obtain ⟨h1, h2, h3⟩ := takeHex_sound 2 rest vs rest2 ht
      subst hr
      refine ⟨vs, ?_, h2, h3, hv.symm⟩
      rw [dropLit_sound _ _ _ hd, h1, List.append_assoc]

theorem searchLast_sound {α : Type} (f : List Char → Option α) :
    ∀ (s : List Char) (r : α), searchLast f s = some r →
      ∃ p q, s = p ++ q ∧ f q = some r := by
  intro s
  induction s with
  | nil =>
    intro r h
    exact ⟨[], [], rfl, by simpa [searchLast] using h⟩
  | cons c cs ih =>
    intro r h
    simp only [searchLast] at h
    split at h
    next => exact ⟨[], c :: cs, rfl, h⟩
    next =>
      split at h
      next r' hs =>
        simp only [Option.some.injEq] at h
        subst h
        obtain ⟨p, q, h1, h2⟩ := ih r' hs
        exact ⟨c :: p, q, by simp [h1], h2⟩
      next => exact ⟨[], c :: cs, rfl, h⟩

theorem readAddrResult_sound (s : List Char) (a v : Nat)
    (h : readAddrResult s = some (a, v)) :
    ∃ ds p2 vs tail,
      s = addrLit ++ ds ++ p2 ++ resultLit ++ vs ++ tail ∧
        ds.length = 4 ∧ vs.length = 2 ∧
        (∀ c ∈ ds, isHexDigit c = true) ∧ (∀ c ∈ vs, isHexDigit c = true) ∧
        a = hexListVal ds ∧ v = hexListVal vs := by
  unfold readAddrResult at h
  split at h
  next => simp at h
  next a' rest ha =>
    split at h
    next => simp at h
    next v' rest2 hs =>
      simp only [Option.some.injEq, Prod.mk.injEq] at h
      obtain ⟨haa, hvv⟩ := h
      rw [haa] at ha
      rw [hvv] at hs
      obtain ⟨ds, h1, h2, h3, h4⟩ := readAddr_sound s a rest ha
      obtain ⟨p2, q2, hq1, hq2⟩ := searchLast_sound readResult rest (v, rest2) hs
      obtain ⟨vs, g1, g2, g3, g4⟩ := readResult_sound q2 v rest2 hq2
      refine ⟨ds, p2, vs, rest2, ?_, h2, g2, h3, g3, h4, g4⟩
      rw [h1, hq1, g1]
      simp [List.append_assoc]

theorem searchFrom_sound : ∀ (s : List Char) (p : Nat × Nat), searchFrom s = some p →
    ∃ u rest, s = u ++ waveMarker ++ rest ∧
      searchLast readAddrResult rest = some p := by
  intro s
  induction s with
  | nil => intro p h; simp [searchFrom] at h
  | cons c cs ih =>
    intro p h
    simp only [searchFrom] at h
    split at h
    next rest hd =>
      split at h
      next q hs =>
        simp only [Option.some.injEq] at h
        subst h
        exact ⟨[], rest, by simpa using dropLit_sound _ _ _ hd, hs⟩
      next =>
        obtain ⟨u, rest2, h1, h2⟩ := ih p h
        exact ⟨c :: u, rest2, by simp [h1], h2⟩
    next =>
      obtain ⟨u, rest2, h1, h2⟩ := ih p h
      exact ⟨c :: u, rest2, by simp [h1], h2⟩

/-- C7 (amended): whenever the matcher returns an event, the line decomposes
as arbitrary text, the marker, text, an `addr=0x` field of 4 hex digits, text,
a `result=0x` field of 2 hex digits, and a tail — and the event's address and
value are the hexadecimal decodings of those two fields. (The pair selected
is the one greedy regex matching picks — the last address field followed by a
result field, and the last result field after it — not the first pair.) -/
theorem C7_matcher_sound (line : List Char) (e : Event)
    (h : waveReadSearch line = some e) :
    ∃ u p1 ds p2 vs tail,
      line = u ++ waveMarker ++ p1 ++ addrLit ++ ds ++ p2 ++ resultLit ++ vs ++ tail ∧
        ds.length = 4 ∧ vs.length = 2 ∧
        (∀ c ∈ ds, isHexDigit c = true) ∧ (∀ c ∈ vs, isHexDigit c = true) ∧
        e.addr = hexListVal ds ∧ e.value = hexListVal vs := by
  unfold waveReadSearch at h
  split at h
  next => simp at h
  next a v hs =>
    simp only [Option.some.injEq] at h
    subst h
    obtain ⟨u, rest, h1, h2⟩ := searchFrom_sound line (a, v) hs
    obtain ⟨p1, q, g1, g2⟩ := searchLast_sound readAddrResult rest (a, v) h2
    obtain ⟨ds, p2, vs, tail, k1, k2, k3, k4, k5, k6, k7⟩ :=
      readAddrResult_sound q a v g2
    refine ⟨u, p1, ds, p2, vs, tail, ?_, k2, k3, k4, k5, k6, k7⟩
    rw [h1, g1, k1]
    simp [List.append_assoc]

/-- Witness for C7 at a concrete matching line. -/
theorem C7_matcher_sound_witness :
    ∃ u p1 ds p2 vs tail,
      "apu.ch3 wave read addr=0xFF30 result=0xAB".data
          = u ++ waveMarker ++ p1 ++ addrLit ++ ds ++ p2 ++ resultLit ++ vs ++ tail ∧
        ds.length = 4 ∧ vs.length = 2 ∧
        (∀ c ∈ ds, isHexDigit c = true) ∧ (∀ c ∈ vs, isHexDigit c = true) ∧
        (⟨0xFF30, 0xAB⟩ : Event).addr = hexListVal ds ∧
        (⟨0xFF30, 0xAB⟩ : Event).value = hexListVal vs :=
  C7_matcher_sound _ ⟨0xFF30, 0xAB⟩ (by rfl)

/-- Counterexample to C7 as stated: on a line carrying two well-formed
address/value pairs — first `(0x1111, 0x22)`, then `(0x3333, 0x44)` — the
matcher returns the second (greedy), not the first. -/
theorem C7_first_pair_counterexample :
    waveReadSearch
        "apu.ch3 wave read addr=0x1111 result=0x22 addr=0x3333 result=0x44".data
        = some ⟨0x3333, 0x44⟩ ∧
      waveReadSearch
          "apu.ch3 wave read addr=0x1111 result=0x22 addr=0x3333 result=0x44".data
        ≠ some ⟨0x1111, 0x22⟩ := by
  constructor
  · rfl
  · intro h
    rw [show waveReadSearch
        "apu.ch3 wave read addr=0x1111 result=0x22 addr=0x3333 result=0x44".data
        = some ⟨0x3333, 0x44⟩ from rfl] at h
    simp at h
